import Mathlib

/- Shallow embedding of src/main.rs (charger-uptime-rs).

   Machine integers are modelled as Nat; the u32/u64 range checks done by
   Rust's `parse` and the `as u8` narrowing cast are made explicit where
   the source performs them.  Fallible code returns Option; a Rust panic
   (unwrap of None, division by zero) is modelled by an explicit panic
   constructor. -/

/- TimeRange (main.rs lines 18-23).  `from` is a Lean keyword, so the
   field is named `from_`. -/
structure TimeRange where
  from_ : Nat
  to_ : Nat
  up : Bool
  deriving DecidableEq

/- Comparator used by the sorts at lines 118 and 137: `a.cmp(&b)` calls
   the Ord derived at line 18, lexicographic on (from, to, up) with
   false < true.  (The manual PartialOrd at lines 25-33 ignores `up`,
   but `sort_by` invokes `cmp`, not `partial_cmp`.) -/
def trLE (a b : TimeRange) : Prop :=
  a.from_ < b.from_ ∨ (a.from_ = b.from_ ∧
    (a.to_ < b.to_ ∨ (a.to_ = b.to_ ∧ a.up.toNat ≤ b.up.toNat)))

instance : DecidableRel trLE := fun a b => by
  unfold trLE
  exact inferInstance

instance : IsTotal TimeRange trLE :=
  ⟨fun a b => by unfold trLE; omega⟩

instance : IsTrans TimeRange trLE :=
  ⟨fun a b c => by unfold trLE; omega⟩

/- The stable ascending sort used at lines 118 and 137
   (`sort_by(|a,b| a.cmp(&b))`). -/
def sortTR (l : List TimeRange) : List TimeRange :=
  List.insertionSort trLE l

/- Result of charger_times_combine: Ok(vec), the conflicting-report Err,
   or the panic of `first().unwrap()` on an empty vector. -/
inductive CombineResult where
  | ok (ts : List TimeRange)
  | conflict
  | panic
  deriving DecidableEq

/- Loop of charger_times_combine (lines 200-213): `acc` is curr_report
   and `condensed` is condensed_times.  Note line 204 assigns
   `curr_report.to_ = curr.to` (no max). -/
def combineGo (acc : TimeRange) (condensed : List TimeRange) :
    List TimeRange → CombineResult
  | [] => .ok (condensed ++ [acc])
  | curr :: rest =>
    if curr.from_ < acc.to_ then
      if curr.up = acc.up then
        combineGo { acc with to_ := curr.to_ } condensed rest
      else
        .conflict
    else
      combineGo curr (condensed ++ [acc]) rest

/- charger_times_combine (lines 195-216). -/
def charger_times_combine (charger_times : List TimeRange) : CombineResult :=
  match charger_times with
  | [] => .panic
  | first :: rest => combineGo first [] rest

/- State of the per-station sweep (lines 143-150). -/
structure SweepState where
  last_reported_time : Nat
  available_time : Nat
  reported_till_time : Nat
  deriving DecidableEq

/- Loop body of the sweep (lines 153-176). -/
def sweepStep (s : SweepState) (w : TimeRange) : SweepState :=
  let last := if s.last_reported_time < w.to_ then w.to_ else s.last_reported_time
  if w.up = false then
    { s with last_reported_time := last }
  else if w.to_ ≤ s.reported_till_time then
    { s with last_reported_time := last }
  else if w.from_ ≤ s.reported_till_time then
    { last_reported_time := last,
      available_time := s.available_time + (w.to_ - s.reported_till_time),
      reported_till_time := w.to_ }
  else
    { last_reported_time := last,
      available_time := s.available_time + (w.to_ - w.from_),
      reported_till_time := w.to_ }

/- Initialization from the first report (lines 141-150). -/
def initState (first : TimeRange) : SweepState :=
  { last_reported_time := first.to_,
    available_time := if first.up then first.to_ - first.from_ else 0,
    reported_till_time := first.to_ }

/- Lines 136-177: sort the station's gathered windows and sweep them,
   yielding (available_time, total_time); none when there are no
   windows. -/
def stationTotals (ws : List TimeRange) : Option (Nat × Nat) :=
  match sortTR ws with
  | [] => none
  | first :: rest =>
    let s := rest.foldl sweepStep (initState first)
    some (s.available_time, s.last_reported_time - first.from_)

/- Lines 179-189: the overflow-avoiding percentage computation.  `none`
   models the u64 division-by-zero panic at line 189. -/
def availability_percent (available total : Nat) : Option Nat :=
  let t := if total > 10000 then total / 100 else total
  let a := if total > 10000 then available else available * 100
  if t = 0 then none else some (a / t)

/- Association-list lookup, modelling HashMap::get. -/
def lookupL {α : Type} (k : Nat) : List (Nat × α) → Option α
  | [] => none
  | (k', v) :: rest => if k = k' then some v else lookupL k rest

/- Outcome of compute_availability: Ok(vec), the conflicting-report Err
   naming the charger (line 125), or a panic. -/
inductive Res (α : Type) where
  | ok (val : α)
  | conflict (charger : Nat)
  | panic
  deriving DecidableEq

/- Lines 110-127: gather the combined reports of a station's chargers.
   An absent charger is skipped (lines 113-115); a combine error aborts
   naming the charger.  The in-place sort of line 118 is modelled by
   sorting at each use (the sort is deterministic and idempotent). -/
def gatherStation (uptime : List (Nat × List TimeRange)) :
    List Nat → Res (List TimeRange)
  | [] => .ok []
  | c :: cs =>
    match lookupL c uptime with
    | none => gatherStation uptime cs
    | some ts =>
      match charger_times_combine (sortTR ts) with
      | .ok combined =>
        match gatherStation uptime cs with
        | .ok restWs => .ok (combined ++ restWs)
        | .conflict c' => .conflict c'
        | .panic => .panic
      | .conflict => .conflict c
      | .panic => .panic

/- compute_availability (lines 102-193).  The `% 256` is the `as u8`
   narrowing cast at line 190; stations with no gathered reports are
   skipped (lines 129-134). -/
def compute_availability (stations : List (Nat × List Nat))
    (uptime : List (Nat × List TimeRange)) : Res (List (Nat × Nat)) :=
  match stations with
  | [] => .ok []
  | (sid, chargers) :: rest =>
    match gatherStation uptime chargers with
    | .conflict c => .conflict c
    | .panic => .panic
    | .ok ws =>
      match stationTotals ws with
      | none => compute_availability rest uptime
      | some (available, total) =>
        match availability_percent available total with
        | none => .panic
        | some p =>
          match compute_availability rest uptime with
          | .ok out => .ok ((sid, p % 256) :: out)
          | .conflict c => .conflict c
          | .panic => .panic

/- Character classes of the availability regex.  `\s` (and the
   char::is_whitespace used by str::trim) match the Unicode White_Space
   class, given here by code point; in particular vertical tab 0x0B and
   form feed 0x0C are included. -/
def isSpaceChar (c : Char) : Bool :=
  c.toNat = 0x20 || c.toNat = 0x09 || c.toNat = 0x0A || c.toNat = 0x0B ||
  c.toNat = 0x0C || c.toNat = 0x0D || c.toNat = 0x85 || c.toNat = 0xA0 ||
  c.toNat = 0x1680 || (decide (0x2000 ≤ c.toNat) && decide (c.toNat ≤ 0x200A)) ||
  c.toNat = 0x2028 || c.toNat = 0x2029 || c.toNat = 0x202F ||
  c.toNat = 0x205F || c.toNat = 0x3000

def isDigitChar (c : Char) : Bool := c.isDigit

def isWordChar (c : Char) : Bool := c.isAlphanum || c = '_'

/- Value of a string of decimal digits (what Rust's parse computes on an
   all-digit capture). -/
def natOfDigits (cs : List Char) : Nat :=
  cs.foldl (fun n c => n * 10 + (c.toNat - '0'.toNat)) 0

/- One attempt of the availability regex (line 334)
     (?<charger_id>\d+)\s+(?<start_time>\d+)\s+(?<end_time>\d+)\s*(?<up_status>\w*)
   anchored at the head of `cs`.  Every quantifier boundary separates
   disjoint character classes and the two trailing quantifiers always
   succeed, so greedy maximal munch is exact for the leftmost-first
   semantics of Regex::captures. -/
def matchAvailAt (cs : List Char) :
    Option (List Char × List Char × List Char × List Char) :=
  let d1 := cs.takeWhile isDigitChar
  let r1 := cs.dropWhile isDigitChar
  if d1 = [] then none else
  let s1 := r1.takeWhile isSpaceChar
  let r2 := r1.dropWhile isSpaceChar
  if s1 = [] then none else
  let d2 := r2.takeWhile isDigitChar
  let r3 := r2.dropWhile isDigitChar
  if d2 = [] then none else
  let s2 := r3.takeWhile isSpaceChar
  let r4 := r3.dropWhile isSpaceChar
  if s2 = [] then none else
  let d3 := r4.takeWhile isDigitChar
  let r5 := r4.dropWhile isDigitChar
  if d3 = [] then none else
  let r6 := r5.dropWhile isSpaceChar
  let w := r6.takeWhile isWordChar
  some (d1, d2, d3, w)

/- Leftmost search: Regex::captures scans the whole line, it does not
   anchor the pattern to the line. -/
def matchAvail : List Char → Option (List Char × List Char × List Char × List Char)
  | [] => none
  | c :: cs =>
    match matchAvailAt (c :: cs) with
    | some r => some r
    | none => matchAvail cs

/- parse_charger_availability (lines 333-366).  The captures are all
   digits, so parse::<u32>/parse::<u64> fail only when the value is out
   of range; any up_status other than "true"/"True" is false. -/
def parse_charger_availability (line : List Char) : Option (Nat × TimeRange) :=
  match matchAvail line with
  | none => none
  | some (cid, st, en, up) =>
    if natOfDigits cid < 2 ^ 32 then
      if natOfDigits st < 2 ^ 64 then
        if natOfDigits en < 2 ^ 64 then
          if natOfDigits st > natOfDigits en then none
          else
            some (natOfDigits cid,
              { from_ := natOfDigits st,
                to_ := natOfDigits en,
                up := (up == "true".data) || (up == "True".data) })
        else none
      else none
    else none

/- Regex `\s+` split (parse_station, lines 298-299).  The Bool records
   whether the character to the right began a separator run, so that a
   maximal run of whitespace produces a single field boundary, with
   leading/trailing runs producing empty fields, as Regex::split does. -/
def splitWsAux : List Char → List (List Char) × Bool
  | [] => ([[]], false)
  | c :: cs =>
    let acc := splitWsAux cs
    if isSpaceChar c then
      if acc.2 then acc else ([] :: acc.1, true)
    else
      match acc.1 with
      | [] => ([[c]], false)
      | f :: rest => ((c :: f) :: rest, false)

def splitWs (l : List Char) : List (List Char) := (splitWsAux l).1

/- Rust u32::from_str: an optional leading '+', then at least one digit,
   value below 2^32. -/
def parseU32 (tok : List Char) : Option Nat :=
  let tok' := if tok.head? = some '+' then tok.tail else tok
  if tok' = [] then none
  else if tok'.all isDigitChar then
    if natOfDigits tok' < 2 ^ 32 then some (natOfDigits tok') else none
  else none

/- splits.swap_remove(0) moves the last element to the front; the
   while/pop loop (lines 311-317) then visits the remaining tokens in
   reverse vector order. -/
def popOrder {α : Type} (rest : List α) : List α :=
  match rest.getLast? with
  | none => []
  | some t => rest.dropLast.reverse ++ [t]

def parseChargers : List (List Char) → Option (List Nat)
  | [] => some []
  | tok :: toks =>
    match parseU32 tok with
    | none => none
    | some c =>
      match parseChargers toks with
      | none => none
      | some cs => some (c :: cs)

/- parse_station (lines 296-320). -/
def parse_station (line : List Char) : Option (Nat × List Nat) :=
  match splitWs line with
  | [] => none
  | s0 :: rest =>
    match parseU32 s0 with
    | none => none
    | some sid =>
      match parseChargers (popOrder rest) with
      | none => none
      | some cs => some (sid, cs)

/- InputKind (lines 12-16). -/
inductive InputKind where
  | None
  | Station
  | ChargerAvailability
  deriving DecidableEq

/- The two maps built by construct_maps, as association lists in first
   insertion order; a station's charger set is a duplicate-free list. -/
structure Maps where
  station_charger_map : List (Nat × List Nat)
  charger_uptime_map : List (Nat × List TimeRange)
  deriving DecidableEq

/- str::trim. -/
def trimChars (cs : List Char) : List Char :=
  ((cs.dropWhile isSpaceChar).reverse.dropWhile isSpaceChar).reverse

def stationsHeader : List Char := "[Stations]".data

def reportsHeader : List Char := "[Charger Availability Reports]".data

/- HashSet::extend on a station's charger set. -/
def extendSet (s : List Nat) (cs : List Nat) : List Nat :=
  cs.foldl (fun acc c => if c ∈ acc then acc else acc ++ [c]) s

def addStation : List (Nat × List Nat) → Nat → List Nat → List (Nat × List Nat)
  | [], sid, cs => [(sid, extendSet [] cs)]
  | (k, v) :: rest, sid, cs =>
    if sid = k then (k, extendSet v cs) :: rest
    else (k, v) :: addStation rest sid cs

def addReport : List (Nat × List TimeRange) → Nat → TimeRange → List (Nat × List TimeRange)
  | [], cid, tr => [(cid, [tr])]
  | (k, v) :: rest, cid, tr =>
    if cid = k then (k, v ++ [tr]) :: rest
    else (k, v) :: addReport rest cid tr

/- One iteration of construct_maps' line loop (lines 238-283). -/
def constructStep (st : InputKind × Maps) (l : List Char) : Option (InputKind × Maps) :=
  let t := trimChars l
  if t = [] then some st
  else if t = stationsHeader then some (InputKind.Station, st.2)
  else if t = reportsHeader then some (InputKind.ChargerAvailability, st.2)
  else
    match st.1 with
    | InputKind.None => none
    | InputKind.Station =>
      match parse_station t with
      | none => none
      | some (sid, cs) =>
        some (InputKind.Station,
          { station_charger_map := addStation st.2.station_charger_map sid cs,
            charger_uptime_map := st.2.charger_uptime_map })
    | InputKind.ChargerAvailability =>
      match parse_charger_availability t with
      | none => none
      | some (cid, tr) =>
        some (InputKind.ChargerAvailability,
          { station_charger_map := st.2.station_charger_map,
            charger_uptime_map := addReport st.2.charger_uptime_map cid tr })

def constructFold : (InputKind × Maps) → List (List Char) → Option (InputKind × Maps)
  | st, [] => some st
  | st, l :: ls =>
    match constructStep st l with
    | none => none
    | some st' => constructFold st' ls

/- construct_maps (lines 226-285) over the file's lines. -/
def construct_maps (ls : List (List Char)) : Option Maps :=
  match constructFold (InputKind.None, ⟨[], []⟩) ls with
  | none => none
  | some st => some st.2

/- The TimeWindow invariant enforced at ingestion (lines 362-364). -/
def TimeRange.wf (w : TimeRange) : Prop := w.from_ ≤ w.to_

/- Helper lemmas. -/

theorem sortTR_mem {w : TimeRange} {l : List TimeRange} : w ∈ sortTR l ↔ w ∈ l :=
  (List.perm_insertionSort trLE l).mem_iff

theorem sortTR_sorted (l : List TimeRange) : (sortTR l).Pairwise trLE :=
  List.sorted_insertionSort trLE l

theorem sortTR_pairwise_from (l : List TimeRange) :
    (sortTR l).Pairwise (fun a b => a.from_ ≤ b.from_) := by
  refine (sortTR_sorted l).imp ?_
  intro a b h
  unfold trLE at h
  omega

theorem combineGo_ne_panic (l : List TimeRange) :
    ∀ acc condensed, combineGo acc condensed l ≠ CombineResult.panic := by
  induction l with
  | nil =>
    intro acc condensed h
    simp [combineGo] at h
  | cons curr rest ih =>
    intro acc condensed h
    unfold combineGo at h
    split at h
    · split at h
      · exact ih _ _ h
      · cases h
    · exact ih _ _ h

theorem combineGo_head (l : List TimeRange) :
    ∀ acc condensed out, combineGo acc condensed l = CombineResult.ok out →
      ∃ v tl, out = condensed ++ v :: tl ∧ v.from_ = acc.from_ := by
  induction l with
  | nil =>
    intro acc condensed out h
    unfold combineGo at h
    cases h
    exact ⟨acc, [], rfl, rfl⟩
  | cons curr rest ih =>
    intro acc condensed out h
    unfold combineGo at h
    split at h
    · split at h
      · obtain ⟨v, tl, hout, hv⟩ := ih _ _ _ h
        exact ⟨v, tl, hout, hv⟩
      · cases h
    · obtain ⟨v, tl, hout, hv⟩ := ih _ _ _ h
      refine ⟨acc, v :: tl, ?_, rfl⟩
      simpa using hout

theorem combineGo_wf (l : List TimeRange) :
    ∀ acc condensed out,
      (∀ w ∈ condensed, w.wf) → acc.wf → (∀ w ∈ l, w.wf) →
      (∀ w ∈ l, acc.from_ ≤ w.from_) →
      l.Pairwise (fun a b => a.from_ ≤ b.from_) →
      combineGo acc condensed l = CombineResult.ok out →
      ∀ w ∈ out, w.wf := by
  induction l with
  | nil =>
    intro acc condensed out hc ha _ _ _ h
    unfold combineGo at h
    cases h
    intro w hw
    rcases List.mem_append.1 hw with h1 | h1
    · exact hc w h1
    · rw [List.mem_singleton] at h1
      subst h1
      exact ha
  | cons curr rest ih =>
    intro acc condensed out hc ha hl hfrom hpw h
    have hcurrwf : curr.wf := hl curr (by simp)
    have hrestwf : ∀ w ∈ rest, w.wf := fun w hw => hl w (List.mem_cons_of_mem _ hw)
    rcases List.pairwise_cons.1 hpw with ⟨hhead, htail⟩
    unfold combineGo at h
    split at h
    · split at h
      · refine ih { acc with to_ := curr.to_ } condensed out hc ?_ hrestwf ?_ htail h
        · have h1 : acc.from_ ≤ curr.from_ := hfrom curr (by simp)
          have h2 : curr.from_ ≤ curr.to_ := hcurrwf
          exact Nat.le_trans h1 h2
        · intro w hw
          exact hfrom w (List.mem_cons_of_mem _ hw)
      · cases h
    · refine ih curr (condensed ++ [acc]) out ?_ hcurrwf hrestwf hhead htail h
      intro w hw
      rcases List.mem_append.1 hw with h1 | h1
      · exact hc w h1
      · rw [List.mem_singleton] at h1
        subst h1
        exact ha

theorem charger_times_combine_wf {ts out : List TimeRange}
    (hts : ∀ w ∈ ts, w.wf)
    (h : charger_times_combine (sortTR ts) = CombineResult.ok out) :
    ∀ w ∈ out, w.wf := by
  unfold charger_times_combine at h
  rcases hs : sortTR ts with _ | ⟨first, rest⟩
  · rw [hs] at h
    cases h
  · rw [hs] at h
    have hmem : ∀ w ∈ first :: rest, w.wf := by
      intro w hw
      refine hts w ?_
      rw [← sortTR_mem (l := ts), hs]
      exact hw
    have hsorted := sortTR_pairwise_from ts
    rw [hs] at hsorted
    rcases List.pairwise_cons.1 hsorted with ⟨hhead, htail⟩
    refine combineGo_wf rest first [] out (by simp) (hmem first (by simp)) ?_ hhead htail h
    intro w hw
    exact hmem w (List.mem_cons_of_mem _ hw)

theorem gatherStation_wf (uptime : List (Nat × List TimeRange))
    (hupt : ∀ c ts, lookupL c uptime = some ts → ∀ w ∈ ts, w.wf) :
    ∀ chargers out, gatherStation uptime chargers = Res.ok out → ∀ w ∈ out, w.wf := by
  intro chargers
  induction chargers with
  | nil =>
    intro out h
    unfold gatherStation at h
    cases h
    simp
  | cons c cs ih =>
    intro out h
    unfold gatherStation at h
    split at h
    · exact ih out h
    · rename_i ts hl
      split at h
      · rename_i combined hc
        split at h
        · rename_i restWs hr
          cases h
          intro w hw
          rcases List.mem_append.1 hw with h1 | h1
          · exact charger_times_combine_wf (hupt c ts hl) hc w h1
          · exact ih restWs hr w h1
        · cases h
        · cases h
      · cases h
      · cases h

theorem sweep_inv (fs : Nat) (l : List TimeRange) :
    ∀ s : SweepState,
      (∀ w ∈ l, w.wf) →
      fs + s.available_time ≤ s.reported_till_time →
      s.reported_till_time ≤ s.last_reported_time →
      fs + (l.foldl sweepStep s).available_time ≤ (l.foldl sweepStep s).reported_till_time ∧
        (l.foldl sweepStep s).reported_till_time ≤ (l.foldl sweepStep s).last_reported_time := by
  induction l with
  | nil =>
    intro s _ h1 h2
    exact ⟨h1, h2⟩
  | cons w rest ih =>
    intro s hwf h1 h2
    have hw : w.from_ ≤ w.to_ := hwf w (by simp)
    have hrest : ∀ x ∈ rest, x.wf := fun x hx => hwf x (List.mem_cons_of_mem _ hx)
    rw [List.foldl_cons]
    refine ih (sweepStep s w) hrest ?_ ?_
    · unfold sweepStep
      dsimp only
      split_ifs <;> dsimp only <;> omega
    · unfold sweepStep
      dsimp only
      split_ifs <;> dsimp only <;> omega

theorem stationTotals_bound {ws : List TimeRange} {a t : Nat}
    (hwf : ∀ w ∈ ws, w.wf)
    (h : stationTotals ws = some (a, t)) : a ≤ t := by
  unfold stationTotals at h
  split at h
  · cases h
  · rename_i first rest hs
    have hmem : ∀ w ∈ first :: rest, w.wf := by
      intro w hw
      refine hwf w ?_
      rw [← sortTR_mem (l := ws), hs]
      exact hw
    have hfw : first.from_ ≤ first.to_ := hmem first (by simp)
    have hrest : ∀ w ∈ rest, w.wf := fun w hw => hmem w (List.mem_cons_of_mem _ hw)
    have hinv := sweep_inv first.from_ rest (initState first) hrest ?_ ?_
    · dsimp only at h
      cases h
      omega
    · unfold initState
      dsimp only
      split_ifs <;> omega
    · unfold initState
      dsimp only
      omega

theorem availability_percent_le {a t p : Nat} (hat : a ≤ t)
    (h : availability_percent a t = some p) : p ≤ 100 := by
  unfold availability_percent at h
  dsimp only at h
  by_cases ht : t > 10000
  · rw [if_pos ht, if_pos ht, if_neg (by omega : ¬ t / 100 = 0)] at h
    cases h
    have hq0 : 0 < t / 100 := by omega
    have h1 : a / (t / 100) ≤ t / (t / 100) := Nat.div_le_div_right hat
    have h2 : t < 101 * (t / 100) := by omega
    have h3 : t / (t / 100) < 101 := (Nat.div_lt_iff_lt_mul hq0).2 h2
    omega
  · rw [if_neg ht, if_neg ht] at h
    by_cases ht0 : t = 0
    · rw [if_pos ht0] at h
      cases h
    · rw [if_neg ht0] at h
      cases h
      have hpos : 0 < t := Nat.pos_of_ne_zero ht0
      have h1 : a * 100 ≤ t * 100 := Nat.mul_le_mul_right 100 hat
      have h2 : a * 100 / t ≤ t * 100 / t := Nat.div_le_div_right h1
      have h3 : t * 100 / t = 100 := Nat.mul_div_cancel_left 100 hpos
      omega

theorem compute_availability_le100
    (uptime : List (Nat × List TimeRange))
    (hupt : ∀ c ts, lookupL c uptime = some ts → ∀ w ∈ ts, w.wf) :
    ∀ stations out, compute_availability stations uptime = Res.ok out →
      ∀ x ∈ out, x.2 ≤ 100 := by
  intro stations
  induction stations with
  | nil =>
    intro out h x hx
    unfold compute_availability at h
    cases h
    simp at hx
  | cons sc rest ih =>
    intro out h x hx
    obtain ⟨sid, chargers⟩ := sc
    unfold compute_availability at h
    split at h
    · cases h
    · cases h
    · rename_i ws hg
      split at h
      · exact ih out h x hx
      · rename_i av tot htot
        split at h
        · cases h
        · rename_i p hp
          split at h
          · rename_i out' hrec
            cases h
            rcases List.mem_cons.1 hx with h1 | h1
            · subst h1
              have hwfws : ∀ w ∈ ws, w.wf := gatherStation_wf uptime hupt chargers ws hg
              have hb := stationTotals_bound hwfws htot
              have hple := availability_percent_le hb hp
              dsimp only
              omega
            · exact ih out' hrec x h1
          · cases h
          · cases h

theorem gather_all_absent (uptime : List (Nat × List TimeRange)) :
    ∀ chargers, (∀ c ∈ chargers, lookupL c uptime = none) →
      gatherStation uptime chargers = Res.ok [] := by
  intro chargers
  induction chargers with
  | nil => intro _; rfl
  | cons c cs ih =>
    intro h
    unfold gatherStation
    rw [h c (by simp)]
    exact ih (fun c' hc' => h c' (List.mem_cons_of_mem _ hc'))

theorem constructFold_append (ls1 : List (List Char)) :
    ∀ st ls2, constructFold st (ls1 ++ ls2) =
      match constructFold st ls1 with
      | none => none
      | some st' => constructFold st' ls2 := by
  induction ls1 with
  | nil => intro st ls2; rfl
  | cons l ls ih =>
    intro st ls2
    rw [List.cons_append]
    rcases h : constructStep st l with _ | st'
    · simp [constructFold, h]
    · simp only [constructFold, h]
      exact ih st' ls2

theorem parse_avail_no_match {l : List Char} (h : matchAvail l = none) :
    parse_charger_availability l = none := by
  unfold parse_charger_availability
  rw [h]

theorem digit_not_space {c : Char} (h : isDigitChar c = true) : isSpaceChar c = false := by
  have hd : 48 ≤ c.toNat ∧ c.toNat ≤ 57 := by
    unfold isDigitChar Char.isDigit at h
    rw [Bool.and_eq_true, decide_eq_true_eq, decide_eq_true_eq] at h
    obtain ⟨h1, h2⟩ := h
    rw [ge_iff_le, UInt32.le_def, BitVec.le_def] at h1
    rw [UInt32.le_def, BitVec.le_def] at h2
    exact ⟨h1, h2⟩
  unfold isSpaceChar
  simp only [Bool.or_eq_false_iff, Bool.and_eq_false_iff, decide_eq_false_iff_not]
  omega

theorem splitWsAux_nosp : ∀ cs : List Char, cs ≠ [] →
    (∀ c ∈ cs, isSpaceChar c = false) → splitWsAux cs = ([cs], false) := by
  intro cs
  induction cs with
  | nil => intro h; exact absurd rfl h
  | cons c cs ih =>
    intro _ hns
    have hc : isSpaceChar c = false := hns c (by simp)
    by_cases hcs : cs = []
    · subst hcs
      unfold splitWsAux
      rw [hc]
      rfl
    · have hrec := ih hcs (fun x hx => hns x (List.mem_cons_of_mem _ hx))
      unfold splitWsAux
      rw [hrec, hc]
      rfl

theorem splitWs_single {cs : List Char} (h1 : cs ≠ [])
    (h2 : ∀ c ∈ cs, isSpaceChar c = false) : splitWs cs = [cs] := by
  unfold splitWs
  rw [splitWsAux_nosp cs h1 h2]

theorem parseU32_digits {cs : List Char} (h1 : cs ≠ [])
    (h2 : ∀ c ∈ cs, isDigitChar c = true) (h3 : natOfDigits cs < 2 ^ 32) :
    parseU32 cs = some (natOfDigits cs) := by
  unfold parseU32
  have hplus : ¬ cs.head? = some '+' := by
    rcases cs with _ | ⟨c, r⟩
    · simp
    · intro hh
      rw [List.head?_cons, Option.some_inj] at hh
      subst hh
      exact absurd (h2 '+' (by simp)) (by decide)
  rw [if_neg hplus, if_neg h1, if_pos (List.all_eq_true.2 h2), if_pos h3]

theorem dropWhile_nosp {cs : List Char} (h : ∀ c ∈ cs, isSpaceChar c = false) :
    cs.dropWhile isSpaceChar = cs := by
  rcases cs with _ | ⟨c, r⟩
  · rfl
  · rw [List.dropWhile_cons, h c (by simp)]
    simp

theorem trimChars_nosp {cs : List Char} (h : ∀ c ∈ cs, isSpaceChar c = false) :
    trimChars cs = cs := by
  unfold trimChars
  rw [dropWhile_nosp h, dropWhile_nosp (by intro c hc; exact h c (List.mem_reverse.1 hc)),
    List.reverse_reverse]

/- Claim theorems. -/

/-- C1: the claim states that a station whose reports are non-empty but
whose observed span is zero is treated as "no data" (omitted, run
completes, division guarded).  The code has no guard: for the single
report (0,0,true) the station reaches the final division with
total_time = 0 and the u64 division panics, contradicting the comment
at line 188 ("Total time is guaranteed to not be zero here").  This
theorem evaluates the engine at that failing input and shows it
panics. -/
theorem c1_zero_span_panics :
    compute_availability [(1, [7])] [(7, [⟨0, 0, true⟩])] = Res.panic := by decide

/-- C2: the claim states that merging a same-status overlapping window
sets the accumulator's end to max(accumulator.end, w.end), so a fully
contained window never shrinks the accumulator.  Line 204 instead
assigns `curr_report.to = curr.to`: for the sorted input
[(0,10,true),(5,7,true)] the contained window (5,7) shrinks the
accumulator's end from 10 to 7, and the normalizer returns
[(0,7,true)]. -/
theorem c2_merge_shrinks_end :
    charger_times_combine [⟨0, 10, true⟩, ⟨5, 7, true⟩] =
      CombineResult.ok [⟨0, 7, true⟩] := by decide

/-- C3: for every station, the aggregated values satisfy
0 ≤ available ≤ total, and every percentage emitted by the engine
(after quantization and the `as u8` cast) lies in [0, 100], for all
valid inputs (all stored windows satisfy from ≤ to). -/
theorem c3_bounds :
    (∀ ws a t, (∀ w ∈ ws, TimeRange.wf w) → stationTotals ws = some (a, t) →
      0 ≤ a ∧ a ≤ t) ∧
    (∀ stations uptime out,
      (∀ c ts, lookupL c uptime = some ts → ∀ w ∈ ts, TimeRange.wf w) →
      compute_availability stations uptime = Res.ok out →
      ∀ x ∈ out, x.2 ≤ 100) :=
  ⟨fun _ a _ hwf h => ⟨Nat.zero_le a, stationTotals_bound hwf h⟩,
   fun stations uptime out hupt h x hx =>
     compute_availability_le100 uptime hupt stations out h x hx⟩

/-- C3 witness: the bounds at a concrete station and a concrete engine
run. -/
theorem c3_bounds_witness :
    (0 ≤ 10 ∧ 10 ≤ 10) ∧ ((1 : Nat), (100 : Nat)).2 ≤ 100 := by
  constructor
  · refine c3_bounds.1 [⟨0, 10, true⟩] 10 10 ?_ (by decide)
    intro w hw
    rw [List.mem_singleton] at hw
    subst hw
    exact Nat.zero_le 10
  · refine c3_bounds.2 [(1, [7])] [(7, [⟨0, 10, true⟩])] [(1, 100)] ?_ (by decide)
      (1, 100) (by simp)
    intro c ts h w hw
    unfold lookupL at h
    split at h
    · rw [Option.some_inj] at h
      subst h
      rw [List.mem_singleton] at hw
      subst hw
      exact Nat.zero_le 10
    · cases h

/-- C5: for total > 0 the quantizer divides total by 100 first when
total > 10000 and otherwise multiplies available by 100, the result
being the floor division of the rescaled operands; in particular
(available, total) = (15000, 20000) yields exactly 75, also through the
whole engine. -/
theorem c5_quantizer_rule :
    (∀ a t : Nat, 0 < t →
      availability_percent a t =
        some (if t > 10000 then a / (t / 100) else a * 100 / t)) ∧
    availability_percent 15000 20000 = some 75 ∧
    compute_availability [(1, [7])] [(7, [⟨0, 15000, true⟩, ⟨15000, 20000, false⟩])] =
      Res.ok [(1, 75)] := by
  refine ⟨?_, by decide, by decide⟩
  intro a t ht
  unfold availability_percent
  dsimp only
  by_cases h : t > 10000
  · rw [if_pos h, if_pos h, if_pos h, if_neg (by omega : ¬ t / 100 = 0)]
  · rw [if_neg h, if_neg h, if_neg h, if_neg (by omega : ¬ t = 0)]

/-- C5 witness: the quantizer rule applied at available = 5,
total = 10. -/
theorem c5_quantizer_rule_witness :
    availability_percent 5 10 =
      some (if 10 > 10000 then 5 / (10 / 100) else 5 * 100 / 10) :=
  c5_quantizer_rule.1 5 10 (by decide)

/-- C6 counterexample: normalizing an empty raw window list does not
succeed with an empty list — `first().unwrap()` panics. -/
theorem c6_empty_list_counterexample :
    charger_times_combine [] = CombineResult.panic ∧
      charger_times_combine [] ≠ CombineResult.ok [] := by decide

/-- C6 (amended): normalizing an empty raw window list panics (unwrap of
None) rather than returning an empty list; for every non-empty raw
window list the normalizer never panics, so Conflict is its only
failure mode there. -/
theorem c6_nonempty_no_panic :
    charger_times_combine [] = CombineResult.panic ∧
    ∀ ts : List TimeRange, ts ≠ [] →
      charger_times_combine ts ≠ CombineResult.panic := by
  constructor
  · rfl
  · intro ts hne
    rcases ts with _ | ⟨first, rest⟩
    · exact absurd rfl hne
    · exact combineGo_ne_panic rest first []

/-- C6 witness: the amended claim at the singleton list
[(0,5,true)]. -/
theorem c6_nonempty_no_panic_witness :
    charger_times_combine [⟨0, 5, true⟩] ≠ CombineResult.panic :=
  c6_nonempty_no_panic.2 [⟨0, 5, true⟩] (by simp)

/-- C7: in every sorted window list and at every state the scan can
reach (any accumulator, including one reshaped by earlier merges, any
already-emitted prefix, any remaining windows), a next window w that
merely touches the accumulator (w.start = accumulator.end) is treated
as non-overlapping whatever the up statuses: the accumulator is pushed
unchanged and a fresh accumulator starts at w (first conjunct), and in
every successful normalization the output keeps them as separate
entries — the accumulator as-is, immediately followed by an entry
starting exactly at w.start — never coalesced (second conjunct). -/
theorem c7_touching_kept_separate :
    (∀ acc condensed (w : TimeRange) rest, w.from_ = acc.to_ →
      combineGo acc condensed (w :: rest) = combineGo w (condensed ++ [acc]) rest) ∧
    (∀ acc condensed (w : TimeRange) rest out, w.from_ = acc.to_ →
      combineGo acc condensed (w :: rest) = CombineResult.ok out →
      ∃ v tl, out = condensed ++ acc :: v :: tl ∧ v.from_ = w.from_) := by
  constructor
  · intro acc condensed w rest h
    rw [combineGo, if_neg (by omega : ¬ w.from_ < acc.to_)]
  · intro acc condensed w rest out h hok
    rw [combineGo, if_neg (by omega : ¬ w.from_ < acc.to_)] at hok
    obtain ⟨v, tl, hout, hv⟩ := combineGo_head rest w (condensed ++ [acc]) out hok
    refine ⟨v, tl, ?_, hv⟩
    simpa using hout

/-- C7 witness: the touching step at a concrete scan state, and the
separate entries in the concrete output. -/
theorem c7_touching_kept_separate_witness :
    combineGo ⟨0, 5, true⟩ [] [⟨5, 9, true⟩] =
      combineGo ⟨5, 9, true⟩ ([] ++ [⟨0, 5, true⟩]) [] ∧
    ∃ v tl, ([⟨0, 5, true⟩, ⟨5, 9, true⟩] : List TimeRange) =
        [] ++ ⟨0, 5, true⟩ :: v :: tl ∧ v.from_ = (⟨5, 9, true⟩ : TimeRange).from_ :=
  ⟨c7_touching_kept_separate.1 ⟨0, 5, true⟩ [] ⟨5, 9, true⟩ [] rfl,
   c7_touching_kept_separate.2 ⟨0, 5, true⟩ [] ⟨5, 9, true⟩ []
     [⟨0, 5, true⟩, ⟨5, 9, true⟩] rfl (by decide)⟩

/-- C8: a station none of whose listed chargers appears in the reports
map contributes nothing: the engine emits no entry for it, raises no
error, and processing continues exactly as if the station were not
there. -/
theorem c8_absent_units_skipped (sid : Nat) (chargers : List Nat)
    (stations : List (Nat × List Nat)) (uptime : List (Nat × List TimeRange))
    (h : ∀ c ∈ chargers, lookupL c uptime = none) :
    compute_availability ((sid, chargers) :: stations) uptime =
      compute_availability stations uptime := by
  conv_lhs => rw [compute_availability]
  rw [gather_all_absent uptime chargers h]
  rfl

/-- C8 witness: station 1 lists charger 7 which is absent from the
reports map. -/
theorem c8_absent_units_skipped_witness :
    compute_availability [(1, [7])] [(9, [⟨0, 5, true⟩])] =
      compute_availability [] [(9, [⟨0, 5, true⟩])] := by
  refine c8_absent_units_skipped 1 [7] [] [(9, [⟨0, 5, true⟩])] ?_
  intro c hc
  rw [List.mem_singleton] at hc
  subst hc
  decide

/-- C9 counterexample: the availability regex is searched anywhere in
the line, not anchored, so the report line "1 2 3 true extra" — which
has an extra token beyond id, start, end and up flag — is silently
accepted instead of being rejected as malformed. -/
theorem c9_extra_tokens_accepted :
    parse_charger_availability ("1 2 3 true extra".data) =
      some (1, ⟨2, 3, true⟩) := by decide

/-- C9 (amended): every report line on which the availability pattern
(digit run, whitespace, digit run, whitespace, digit run, optional
whitespace and word) finds no match at any position is rejected as a
MalformedRecord error that is fatal to the whole run — construct_maps
returns no maps at all; however the pattern is not anchored, so a line
containing a matching substring may be accepted even with extra
tokens around it. -/
theorem c9_unmatched_line_fatal (ls1 : List (List Char)) (lbad : List Char)
    (ls2 : List (List Char)) (m : Maps)
    (hreach : constructFold (InputKind.None, ⟨[], []⟩) ls1 =
      some (InputKind.ChargerAvailability, m))
    (hne : trimChars lbad ≠ [])
    (hh1 : trimChars lbad ≠ stationsHeader)
    (hh2 : trimChars lbad ≠ reportsHeader)
    (hnm : matchAvail (trimChars lbad) = none) :
    construct_maps (ls1 ++ lbad :: ls2) = none := by
  unfold construct_maps
  rw [constructFold_append, hreach]
  have hstep : constructStep (InputKind.ChargerAvailability, m) lbad = none := by
    unfold constructStep
    dsimp only
    rw [if_neg hne, if_neg hh1, if_neg hh2, parse_avail_no_match hnm]
  unfold constructFold
  rw [hstep]

/-- C9 witness: a reports-section line with no digit at all aborts the
whole construction. -/
theorem c9_unmatched_line_fatal_witness :
    construct_maps ["[Charger Availability Reports]".data, "hello world".data] = none :=
  c9_unmatched_line_fatal ["[Charger Availability Reports]".data] ("hello world".data)
    [] ⟨[], []⟩ (by decide) (by decide) (by decide) (by decide) (by decide)

/-- C10: a station line holding only a (digit-string) station id parses
successfully to that id with an empty charger list; via construct_maps
the station enters the membership map with an empty charger set, and
the engine omits such a station from the output without error. -/
theorem c10_station_id_only (cs : List Char) (h1 : cs ≠ [])
    (h2 : ∀ c ∈ cs, isDigitChar c = true) (h3 : natOfDigits cs < 2 ^ 32) :
    parse_station cs = some (natOfDigits cs, []) ∧
    (∀ uptime, compute_availability [(natOfDigits cs, [])] uptime = Res.ok []) ∧
    constructStep (InputKind.Station, ⟨[], []⟩) cs =
      some (InputKind.Station, ⟨[(natOfDigits cs, [])], []⟩) := by
  have hnosp : ∀ c ∈ cs, isSpaceChar c = false := fun c hc => digit_not_space (h2 c hc)
  have hparse : parse_station cs = some (natOfDigits cs, []) := by
    unfold parse_station
    rw [splitWs_single h1 hnosp]
    dsimp only
    rw [parseU32_digits h1 h2 h3]
    rfl
  refine ⟨hparse, fun uptime => rfl, ?_⟩
  unfold constructStep
  dsimp only
  rw [trimChars_nosp hnosp, if_neg h1, if_neg ?_, if_neg ?_]
  · rw [hparse]
    rfl
  · intro heq
    have := h2 '[' (by rw [heq]; decide)
    exact absurd this (by decide)
  · intro heq
    have := h2 '[' (by rw [heq]; decide)
    exact absurd this (by decide)

/-- C10 witness: the line "7" parses to station 7 with no chargers, is
recorded with an empty charger set, and produces no output entry. -/
theorem c10_station_id_only_witness :
    parse_station ("7".data) = some (7, []) ∧
    compute_availability [(7, [])] [(9, [⟨0, 5, true⟩])] = Res.ok [] ∧
    constructStep (InputKind.Station, ⟨[], []⟩) ("7".data) =
      some (InputKind.Station, ⟨[(7, [])], []⟩) := by
  have h := c10_station_id_only ("7".data) (by decide) (by decide) (by decide)
  exact ⟨h.1, h.2.1 [(9, [⟨0, 5, true⟩])], h.2.2⟩

/-- C4: the claim states that any two overlapping windows of one unit
with differing up status make normalization fail with a conflict that
aborts the whole run.  Because the same-status merge at line 204 can
shrink the accumulator (see C2), a later differing-status window that
overlaps an earlier raw window escapes the check: for charger 7 with
raw windows [(0,100,true),(10,20,true),(30,40,false)] the windows
(0,100,true) and (30,40,false) overlap with differing status, yet the
run completes and emits a percentage. -/
theorem c4_conflict_missed :
    charger_times_combine [⟨0, 100, true⟩, ⟨10, 20, true⟩, ⟨30, 40, false⟩] =
      CombineResult.ok [⟨0, 20, true⟩, ⟨30, 40, false⟩] ∧
    compute_availability [(1, [7])]
        [(7, [⟨0, 100, true⟩, ⟨10, 20, true⟩, ⟨30, 40, false⟩])] =
      Res.ok [(1, 50)] := by decide
